import Mathlib

/-!
Shallow embedding of the extraction core of tap-sendgrid
(src/tap_sendgrid/http.py and src/tap_sendgrid/syncs.py) and proofs of the
spec claims about it.  Decoded JSON bodies are modelled by an inductive
`Json` type, Python exceptions by `PyErr`, HTTP responses by `Resp` whose
`json` field is `none` exactly when `r.json()` would raise a
JSONDecodeError, and the network by an oracle `Nat → Resp` giving the
response to the i-th request of a run.  Loops of the source are embedded
as fuel-indexed recursions that also record the trace of requests and
bookmark writes, so that temporal claims about orderings of events can be
stated.
-/

mutual

/-- Decoded JSON values (arrays and objects through the mutual types below,
so that decidable equality is derivable). -/
inductive Json where
  | null
  | boolean (b : Bool)
  | num (n : Int)
  | str (s : String)
  | arr (xs : JsonArr)
  | obj (kvs : JsonObj)
deriving DecidableEq

/-- A JSON array as a cons-list of values. -/
inductive JsonArr where
  | nil
  | cons (hd : Json) (tl : JsonArr)
deriving DecidableEq

/-- A JSON object as a cons-list of key/value pairs. -/
inductive JsonObj where
  | nil
  | cons (k : String) (v : Json) (tl : JsonObj)
deriving DecidableEq

end

/-- First binding of a key in an object, as Python dict lookup on decoded
bodies. -/
def JsonObj.lookup (k : String) : JsonObj → Option Json
  | .nil => none
  | .cons k2 v tl => if k2 = k then some v else lookup k tl

/-- Number of keys of an object. -/
def JsonObj.length : JsonObj → Nat
  | .nil => 0
  | .cons _ _ tl => tl.length + 1

/-- Number of elements of a JSON array. -/
def JsonArr.length : JsonArr → Nat
  | .nil => 0
  | .cons _ tl => tl.length + 1

/-- Build a JSON array from a Lean list. -/
def JsonArr.ofList : List Json → JsonArr
  | [] => .nil
  | x :: xs => .cons x (ofList xs)

/-- Build a JSON object from a Lean association list. -/
def JsonObj.ofList : List (String × Json) → JsonObj
  | [] => .nil
  | (k, v) :: xs => .cons k v (ofList xs)

/-- Python exception kinds that the embedded code can raise. -/
inductive PyErr where
  | jsonDecodeError
  | attributeError (msg : String)
  | indexError
  | typeError
  | valueError (msg : String)
deriving DecidableEq

/-- Python dict.get(key, default): defined on dicts, AttributeError
otherwise. -/
def dictGetD (j : Json) (k : String) (d : Json) : Except PyErr Json :=
  match j with
  | .obj kvs => .ok ((kvs.lookup k).getD d)
  | _ => .error (.attributeError "object has no attribute get")

/-- Python dict.get(key) with the implicit None default. -/
def dictGet (j : Json) (k : String) : Except PyErr Json :=
  dictGetD j k .null

/-- Python subscript j[0]: first element of a list, IndexError when empty,
TypeError on non-lists. -/
def pyIndex0 (j : Json) : Except PyErr Json :=
  match j with
  | .arr .nil => .error .indexError
  | .arr (.cons x _) => .ok x
  | _ => .error .typeError

/-- Python len(): length of a list or string, number of keys of a dict,
TypeError otherwise. -/
def pyLen (j : Json) : Except PyErr Nat :=
  match j with
  | .arr xs => .ok xs.length
  | .obj kvs => .ok kvs.length
  | .str s => .ok s.length
  | _ => .error .typeError

/-- Python == 0 on a decoded JSON value: an int 0 and the bool False both
compare equal to 0; everything else (None included) does not. -/
def pyEqZero (j : Json) : Bool :=
  j == Json.num 0 || j == Json.boolean false

/-- An HTTP response: status code, raw content (for logging), and the
decoded body, where none means r.json() raises JSONDecodeError. -/
structure Resp where
  status : Nat
  content : String
  json : Option Json
deriving DecidableEq

/-- A GET request as issued by the transport: url plus query parameters and
headers, each a list of key/value pairs. -/
structure Request where
  url : String
  params : List (String × String)
  headers : List (String × String)
deriving DecidableEq

/-- CUSTOM_HEADERS from http.py: the one fixed diagnostic header. -/
def CUSTOM_HEADERS : List (String × String) := [("X-SGUID", "3459112")]

/-- A Python runtime value of the two container kinds the header code could
manipulate, tagged so that attribute lookup can distinguish them. -/
inductive HeadersVal where
  | dict (kvs : List (String × String))
  | list (xs : List (String × String))
deriving DecidableEq

/-- Python attribute call v.extend(other): a list method; dicts do not have
an extend attribute, so calling it on a dict raises AttributeError. -/
def extendCall (v : HeadersVal) (other : List (String × String)) :
    Except PyErr HeadersVal :=
  match v with
  | .list xs => .ok (.list (xs ++ other))
  | .dict _ => .error (.attributeError "dict object has no attribute extend")

/-- authed_get from http.py: builds the Authorization header dict, calls
headers.extend(CUSTOM_HEADERS) on it, and only then issues the GET through
the session; the oracle answers the request.  Returns the list of requests
actually issued together with the outcome. -/
def authed_get (respond : Request → Resp) (api_key : String) (url : String)
    (params : List (String × String)) : List Request × Except PyErr Resp :=
  let headers := HeadersVal.dict [("Authorization", "Bearer " ++ api_key)]
  match extendCall headers CUSTOM_HEADERS with
  | .error e => ([], .error e)
  | .ok (.dict kvs) =>
      let req : Request := ⟨url, params, kvs⟩
      ([req], .ok (respond req))
  | .ok (.list kvs) =>
      let req : Request := ⟨url, params, kvs⟩
      ([req], .ok (respond req))

/-- The expression r.json().get('errors', [{}])[0].get('message') of
end_of_records_check: extract the first error entry's message, with the
default list holding one empty dict when the errors key is absent. -/
def firstErrMsg (body : Json) : Except PyErr Json :=
  match dictGetD body "errors" (Json.arr (.cons (Json.obj .nil) .nil)) with
  | .error e => .error e
  | .ok errs =>
      match pyIndex0 errs with
      | .error e => .error e
      | .ok first => dictGet first "message"

/-- The second check of end_of_records_check:
r.json().get('recipient_count') == 0 decides between returning True and
False. -/
def recipientCountZero (body : Json) : Except PyErr Bool :=
  match dictGet body "recipient_count" with
  | .error e => .error e
  | .ok rc => .ok (pyEqZero rc)

/-- end_of_records_check from http.py, on a response with the given status
whose r.json() is the decoded body: true when status is 404 and the first
errors entry has message "No more pages" (the and short-circuits, so the
error-list expression is only evaluated at status 404), true when
recipient_count == 0, false otherwise; dict/index misuse raises. -/
def end_of_records_check (status : Nat) (body : Json) : Except PyErr Bool :=
  if status = 404 then
    match firstErrMsg body with
    | .error e => .error e
    | .ok msg =>
        if msg == Json.str "No more pages" then .ok true
        else recipientCountZero body
  else recipientCountZero body

/-- retry_get from http.py, embedded with the oracle resps giving the
response to the i-th request of this call.  Arguments mirror the loop
state: remaining = retries - attempt + 1, idx counts requests already made,
delay is the current backoff delay (a rational, since delay *= 1.5 leaves
the integers).  Returns the list of sleep delays performed, the number of
requests issued, and either the first non-5xx response or, after
exhaustion, the fatal error carrying the last status code and content. -/
def retryAux (resps : Nat → Resp) :
    Nat → Nat → ℚ → List ℚ × Nat × Except (Nat × String) Resp
  | 0, idx, _ =>
      ([], 0, .error ((resps (idx - 1)).status, (resps (idx - 1)).content))
  | n + 1, idx, delay =>
      let r := resps idx
      if 500 ≤ r.status then
        let rest := retryAux resps n (idx + 1) (delay * (3 / 2 : ℚ))
        (delay :: rest.1, rest.2.1 + 1, rest.2.2)
      else
        ([], 1, .ok r)

/-- retry_get with its constants: retries = 20, initial delay = 120
seconds, backoff factor 1.5, first attempt numbered 1. -/
def retry_get (resps : Nat → Resp) : List ℚ × Nat × Except (Nat × String) Resp :=
  retryAux resps 20 0 120

/-- Outcome of one of the generator loops of syncs.py: ran out of fuel
(the loop would still be running), broke out normally, or raised. -/
inductive GenOut where
  | outOfFuel
  | stop
  | fatal (e : PyErr)
deriving DecidableEq

/-- Syncer.get_using_paged from syncs.py, embedded over the response
oracle.  Loop state: fuel bounds the number of iterations, idx counts
requests already issued in the run, page and attempts are the page and
page_attempts variables (page starts at 1, attempts at 0).  Each request
carries params page and page_size 1000 (plus the caller's add_params); the
returned list records the page parameter of every request issued, in
order.  A JSONDecodeError from r.json() is retried at the same page while
page_attempts + 1 < 3 and otherwise raises ValueError; a decoded body is
fed to end_of_records_check, whose false answer resets page_attempts and
advances the page and whose true answer breaks the loop. -/
def get_using_paged_aux (resps : Nat → Resp) :
    Nat → Nat → Nat → Nat → List Nat × GenOut
  | 0, _, _, _ => ([], .outOfFuel)
  | n + 1, idx, page, attempts =>
      let r := resps idx
      match r.json with
      | none =>
          if attempts + 1 < 3 then
            let rest := get_using_paged_aux resps n (idx + 1) page (attempts + 1)
            (page :: rest.1, rest.2)
          else
            ([page], .fatal (.valueError "Error parsing file..."))
      | some body =>
          match end_of_records_check r.status body with
          | .error e => ([page], .fatal e)
          | .ok true => ([page], .stop)
          | .ok false =>
              let rest := get_using_paged_aux resps n (idx + 1) (page + 1) 0
              (page :: rest.1, rest.2)

/-- get_using_paged with its initial loop state: page = 1,
page_attempts = 0. -/
def get_using_paged (resps : Nat → Resp) (fuel : Nat) : List Nat × GenOut :=
  get_using_paged_aux resps fuel 0 1 0

/-- Syncer.get_members_limits from syncs.py: offset starts at 0, limit is
250000; each iteration issues a request at the current offset, yields the
decoded body (a JSONDecodeError is fatal at once, raising ValueError), and
continues at offset + limit while len(r.json()) is nonzero, breaking on an
empty batch.  Returns the offsets requested, the bodies yielded, and the
outcome. -/
def get_members_limits_aux (resps : Nat → Resp) :
    Nat → Nat → Nat → List Nat × List Json × GenOut
  | 0, _, _ => ([], [], .outOfFuel)
  | n + 1, idx, off =>
      let r := resps idx
      match r.json with
      | none => ([off], [], .fatal (.valueError "Error parsing file..."))
      | some body =>
          match pyLen body with
          | .error e => ([off], [body], .fatal e)
          | .ok len =>
              if len ≠ 0 then
                let rest := get_members_limits_aux resps n (idx + 1) (off + 250000)
                (off :: rest.1, body :: rest.2.1, rest.2.2)
              else
                ([off], [body], .stop)

/-- get_members_limits with its initial offset 0. -/
def get_members_limits (resps : Nat → Resp) (fuel : Nat) :
    List Nat × List Json × GenOut :=
  get_members_limits_aux resps fuel 0 0

/-- Syncer.get_using_offset from syncs.py: offset starts at 0, limit is
500, each request also carries the start_time/end_time window bounds; the
batch is extracted from the decoded body by get_results_from_payload
(utils.py, not under src/), here the oracle argument extract, modelled
from the spec: a response-shape-specific accessor from the decoded body to
the record list.  A JSONDecodeError from .json() propagates uncaught.  The
batch is yielded, and the loop continues at offset + limit while
len(batch) >= limit, breaking on a shorter batch.  Returns the offsets
requested, the batches yielded, and the outcome. -/
def get_using_offset_aux (resps : Nat → Resp) (extract : Json → List Json) :
    Nat → Nat → Nat → List Nat × List (List Json) × GenOut
  | 0, _, _ => ([], [], .outOfFuel)
  | n + 1, idx, off =>
      let r := resps idx
      match r.json with
      | none => ([off], [], .fatal .jsonDecodeError)
      | some body =>
          let batch := extract body
          if 500 ≤ batch.length then
            let rest := get_using_offset_aux resps extract n (idx + 1) (off + 500)
            (off :: rest.1, batch :: rest.2.1, rest.2.2)
          else
            ([off], [batch], .stop)

/-- Events of one Syncer.sync_end_time run: a fetch by the offset cursor at
a given offset, the write of a yielded batch, and a set_bookmark call with
the value written. -/
inductive EndEv where
  | fetch (off : Nat)
  | writeRecords (batch : List Json)
  | setBookmark (v : Nat)
deriving DecidableEq

/-- Syncer.sync_end_time from syncs.py, as the trace of its events: it
drives get_using_offset over the [start, end] window and, for each batch
the generator yields, writes the records and immediately calls
set_bookmark(stream.bookmark, self.ctx.ts_to_dt(end)); because the
generator is lazy, the next fetch happens only after the loop body for the
previous batch has run, which the interleaving of the trace records.  e is
the end timestamp of the window. -/
def sync_end_time_aux (resps : Nat → Resp) (extract : Json → List Json)
    (e : Nat) : Nat → Nat → Nat → List EndEv × GenOut
  | 0, _, _ => ([], .outOfFuel)
  | n + 1, idx, off =>
      let r := resps idx
      match r.json with
      | none => ([.fetch off], .fatal .jsonDecodeError)
      | some body =>
          let batch := extract body
          let evs := [EndEv.fetch off, EndEv.writeRecords batch, EndEv.setBookmark e]
          if 500 ≤ batch.length then
            let rest := sync_end_time_aux resps extract e n (idx + 1) (off + 500)
            (evs ++ rest.1, rest.2)
          else
            (evs, .stop)

/-- sync_end_time with the cursor's initial state offset = 0. -/
def sync_end_time (resps : Nat → Resp) (extract : Json → List Json)
    (e : Nat) (fuel : Nat) : List EndEv × GenOut :=
  sync_end_time_aux resps extract e fuel 0 0

/-- pendulum start_of('day') on an epoch timestamp in seconds. -/
def start_of_day (t : Nat) : Nat := t / 86400 * 86400

/-- The while loop of Syncer.discrete_days_since_start: collect day starts
from searchTerm on, stepping by one day, while searchTerm <= now. -/
def daysLoop (now searchTerm : Nat) : List Nat :=
  if h : searchTerm ≤ now then searchTerm :: daysLoop now (searchTerm + 86400)
  else []
termination_by now + 1 - searchTerm
decreasing_by simp_wf; omega

/-- Syncer.discrete_days_since_start from syncs.py: the day starts of each
day from the day containing start through now. -/
def discrete_days_since_start (now start : Nat) : List Nat :=
  daysLoop now (start_of_day start)

/-- Events of one Syncer.sync_timestamp run: a paged-search invocation
(write_paged_records) for one search field on one day timestamp, or a
set_bookmark call with the value written. -/
inductive TsEv where
  | search (field : String) (ts : Nat)
  | setBookmark (v : Nat)
deriving DecidableEq

/-- Syncer.sync_timestamp from syncs.py, as the trace of its events: for
every day returned by discrete_days_since_start(start), one paged search
per field in [created_at, updated_at], then
set_bookmark(stream.bookmark, self.ctx.now_date_str()); now is both the
loop bound of the day range and the value the bookmark is set to. -/
def sync_timestamp_events (now start : Nat) : List TsEv :=
  (discrete_days_since_start now start).flatMap fun day =>
    [TsEv.search "created_at" day, TsEv.search "updated_at" day,
     TsEv.setBookmark now]

/-- Whether an event of sync_timestamp is a paged-search invocation. -/
def isSearch : TsEv → Bool
  | .search _ _ => true
  | .setBookmark _ => false

/-- Number of paged-search invocations in a sync_timestamp trace. -/
def countSearches (l : List TsEv) : Nat := (l.filter isSearch).length

/-- Python truthiness of a decoded JSON value, as used by the
`if results:` guard of write_paged_records. -/
def truthy (j : Json) : Bool :=
  match j with
  | .null => false
  | .boolean b => b
  | .num n => n != 0
  | .str s => s != ""
  | .arr xs => xs.length != 0
  | .obj kvs => kvs.length != 0

/-- Outcome of Syncer.write_paged_records over the bodies its
get_using_paged generator yields: the record batches written, or the
re-raise of a JSONDecodeError from the except branch around
res.get('recipients'), or some other uncaught exception. -/
inductive WprOut where
  | ok (written : List Json)
  | reraisedDecodeError
  | uncaught (e : PyErr)
deriving DecidableEq

/-- Syncer.write_paged_records from syncs.py, over the list of decoded
bodies yielded by its get_using_paged call: for each body, the try block
evaluates res.get('recipients'); a JSONDecodeError there would be logged
and re-raised; a truthy result is written via write_records. -/
def write_paged_records_bodies : List Json → WprOut
  | [] => .ok []
  | res :: rest =>
      match dictGet res "recipients" with
      | .error .jsonDecodeError => .reraisedDecodeError
      | .error e => .uncaught e
      | .ok results =>
          match write_paged_records_bodies rest with
          | .ok w => .ok (if truthy results then results :: w else w)
          | out => out

/-- Modelled from the spec: ctx.update_start_date_bookmark (context.py,
not under src/) reads the stored bookmark of the stream and falls back to
the configured global start_date when no bookmark is present yet. -/
def update_start_date_bookmark (start_date : Nat) (st : Option Nat) : Nat :=
  st.getD start_date

/-- Effect of one sync_timestamp event on the stored bookmark (a
set_bookmark call overwrites it, a search leaves it alone). -/
def applyTsEv (s : Option Nat) : TsEv → Option Nat
  | .search _ _ => s
  | .setBookmark v => some v

/-- Stored bookmark after a sync_timestamp trace. -/
def applyTsEvents (st : Option Nat) (l : List TsEv) : Option Nat :=
  l.foldl applyTsEv st

/-- Effect of one sync_end_time event on the stored bookmark. -/
def applyEndEv (s : Option Nat) : EndEv → Option Nat
  | .setBookmark v => some v
  | _ => s

/-- Stored bookmark after a sync_end_time trace. -/
def applyEndEvents (st : Option Nat) (l : List EndEv) : Option Nat :=
  l.foldl applyEndEv st

/-- One incremental sync of a bookmarked resource, with the data the run
needs: sync_timestamp needs nothing beyond the clock, sync_end_time runs
its offset cursor against a response oracle with a shape accessor and a
fuel bound. -/
inductive SyncKind where
  | timestamp
  | endTime (resps : Nat → Resp) (extract : Json → List Json) (fuel : Nat)

/-- The bookmark after one incremental sync executed at clock value now on
stored bookmark st: both strategies first read the bookmark through
update_start_date_bookmark and then perform their set_bookmark calls. -/
def runStep (sd now : Nat) (st : Option Nat) : SyncKind → Option Nat
  | .timestamp =>
      applyTsEvents st (sync_timestamp_events now (update_start_date_bookmark sd st))
  | .endTime resps extract fuel =>
      applyEndEvents st (sync_end_time resps extract now fuel).1

/-- A sync completed successfully: sync_timestamp always runs its day loop
to the end; sync_end_time succeeds when its offset cursor broke out of its
loop normally. -/
def stepOk (now : Nat) : SyncKind → Prop
  | .timestamp => True
  | .endTime resps extract fuel => (sync_end_time resps extract now fuel).2 = .stop

/-- The stored bookmark after a sequence of incremental syncs, each a
strategy paired with the clock value at which it ran. -/
def runSyncs (sd : Nat) : Option Nat → List (SyncKind × Nat) → Option Nat
  | st, [] => st
  | st, r :: rest => runSyncs sd (runStep sd r.2 st r.1) rest

/-- The stored bookmark after the first i syncs of a sequence. -/
def stateAfter (sd : Nat) (st0 : Option Nat) (runs : List (SyncKind × Nat))
    (i : Nat) : Option Nat :=
  runSyncs sd st0 (runs.take i)

/-- The three events one batch of a sync_end_time run contributes, for the
i-th fetch of the window: the fetch at offset off + 500 * i, the write of
the batch extracted from the body answered to absolute request idx + i,
and the set_bookmark call with the window end. -/
def endGroup (extract : Json → List Json) (bod : Nat → Json) (e off idx i : Nat) :
    List EndEv :=
  [EndEv.fetch (off + 500 * i),
   EndEv.writeRecords (extract (bod (idx + i))),
   EndEv.setBookmark e]

/-! ## Theorems -/

/-- C1: the claim says every authed_get call issues its GET with both the
Authorization bearer header and the fixed X-SGUID header merged in; the
code instead calls the list-only extend method on the headers dict, which
raises AttributeError before any request is sent, for every input. -/
theorem C1_authed_get_attribute_error (respond : Request → Resp)
    (api_key url : String) (params : List (String × String)) :
    authed_get respond api_key url params =
      ([], .error (.attributeError "dict object has no attribute extend")) :=
  rfl

/-- A one-argument dict.get on a decoded body never raises a
JSONDecodeError: it either succeeds or raises AttributeError. -/
theorem dictGet_ne_jsonDecodeError (res : Json) (k : String) :
    dictGet res k ≠ .error .jsonDecodeError := by
  cases res <;> simp [dictGet, dictGetD]

/-- C10: in write_paged_records, res.get('recipients') on an
already-decoded body never raises JSONDecodeError, so the surrounding
except-JSONDecodeError branch is unreachable and write_paged_records never
re-raises a decode error, whatever bodies its generator yields. -/
theorem C10_no_reraised_decode_error :
    (∀ res : Json, dictGet res "recipients" ≠ .error .jsonDecodeError) ∧
    ∀ bodies : List Json,
      write_paged_records_bodies bodies ≠ .reraisedDecodeError := by
  refine ⟨fun res => dictGet_ne_jsonDecodeError res "recipients", ?_⟩
  intro bodies
  induction bodies with
  | nil => simp [write_paged_records_bodies]
  | cons res rest ih =>
      rw [write_paged_records_bodies]
      rcases h : dictGet res "recipients" with e | results
      · cases e with
        | jsonDecodeError => exact absurd h (dictGet_ne_jsonDecodeError res "recipients")
        | attributeError m => simp
        | indexError => simp
        | typeError => simp
        | valueError m => simp
      · rcases h2 : write_paged_records_bodies rest with w | _ | e
        · simp
        · exact absurd h2 ih
        · simp

/-- C3 counterexample: a 404 response whose first error message is "nope",
not the sentinel, yet whose body carries recipient_count 0; the claim says
any non-sentinel first-error message at 404 returns false, but
end_of_records_check returns true on it. -/
theorem C3_counterexample :
    end_of_records_check 404
        (Json.obj (.cons "errors"
          (.arr (.cons (.obj (.cons "message" (.str "nope") .nil)) .nil))
          (.cons "recipient_count" (.num 0) .nil))) = .ok true ∧
    firstErrMsg
        (Json.obj (.cons "errors"
          (.arr (.cons (.obj (.cons "message" (.str "nope") .nil)) .nil))
          (.cons "recipient_count" (.num 0) .nil))) = .ok (.str "nope") :=
  ⟨rfl, rfl⟩

/-- C3 (amended): for a 404 response whose first-error-message extraction
succeeds, end_of_records_check returns true iff that message is exactly
"No more pages" or the body's recipient_count compares equal to 0; with
any other first-error message it returns false only when recipient_count
does not compare equal to 0. -/
theorem C3_end_of_records_404 (body msg : Json)
    (h : firstErrMsg body = .ok msg) :
    ∃ rc, dictGet body "recipient_count" = .ok rc ∧
      end_of_records_check 404 body =
        .ok ((msg == Json.str "No more pages") || pyEqZero rc) := by
  cases body with
  | obj kvs =>
      refine ⟨(kvs.lookup "recipient_count").getD .null, rfl, ?_⟩
      simp only [end_of_records_check, if_pos, h]
      by_cases hm : (msg == Json.str "No more pages") = true
      · simp [hm]
      · simp [hm, recipientCountZero, dictGet, dictGetD]
  | null => simp [firstErrMsg, dictGetD] at h
  | boolean b => simp [firstErrMsg, dictGetD] at h
  | num n => simp [firstErrMsg, dictGetD] at h
  | str s => simp [firstErrMsg, dictGetD] at h
  | arr xs => simp [firstErrMsg, dictGetD] at h

/-- C3 witness: the amended theorem applied to a 404 body whose first
error message is "nope" and whose recipient_count is 7, where the check
returns false. -/
theorem C3_end_of_records_404_witness :
    ∃ rc, dictGet
        (Json.obj (.cons "errors"
          (.arr (.cons (.obj (.cons "message" (.str "nope") .nil)) .nil))
          (.cons "recipient_count" (.num 7) .nil))) "recipient_count" = .ok rc ∧
      end_of_records_check 404
        (Json.obj (.cons "errors"
          (.arr (.cons (.obj (.cons "message" (.str "nope") .nil)) .nil))
          (.cons "recipient_count" (.num 7) .nil))) =
        .ok ((Json.str "nope" == Json.str "No more pages") || pyEqZero rc) :=
  C3_end_of_records_404
    (Json.obj (.cons "errors"
      (.arr (.cons (.obj (.cons "message" (.str "nope") .nil)) .nil))
      (.cons "recipient_count" (.num 7) .nil))) (.str "nope") rfl

/-- Prepending a delay to the geometric tail started at delay * 3/2 gives
the geometric sequence started at the delay itself. -/
theorem geom_cons (d : ℚ) (m : Nat) :
    d :: (List.range m).map (fun k => d * (3 / 2 : ℚ) * (3 / 2 : ℚ) ^ k) =
      (List.range (m + 1)).map (fun k => d * (3 / 2 : ℚ) ^ k) := by
  rw [List.range_succ_eq_map, List.map_cons, List.map_map]
  congr 1
  · simp
  · refine List.map_congr_left fun a _ => ?_
    simp only [Function.comp_apply, pow_succ]
    ring

/-- On a streak of all-5xx responses, retryAux sleeps the geometric
backoff sequence, issues one request per unit of fuel, and ends in the
fatal error carrying the last response's status and content. -/
theorem retryAux_all5 (resps : Nat → Resp) :
    ∀ (n idx : Nat) (d : ℚ), (∀ i, i < n → 500 ≤ (resps (idx + i)).status) →
    retryAux resps n idx d =
      ((List.range n).map (fun k => d * (3 / 2 : ℚ) ^ k), n,
        .error ((resps (idx + n - 1)).status, (resps (idx + n - 1)).content)) := by
  intro n
  induction n with
  | zero =>
      intro idx d _
      simp [retryAux]
  | succ m ih =>
      intro idx d h
      have h0 : 500 ≤ (resps idx).status := by simpa using h 0 m.succ_pos
      have hshift : ∀ i, i < m → 500 ≤ (resps (idx + 1 + i)).status := by
        intro i hi
        have := h (i + 1) (by omega)
        simpa [Nat.add_assoc, Nat.add_comm 1 i] using this
      rw [retryAux]
      simp only [if_pos h0, ih (idx + 1) (d * (3 / 2 : ℚ)) hshift]
      refine congrArg₂ _ (geom_cons d m) (congrArg₂ _ rfl ?_)
      have : idx + 1 + m - 1 = idx + (m + 1) - 1 := by omega
      rw [this]

/-- retryAux never issues more requests than it has fuel for. -/
theorem retryAux_count_le (resps : Nat → Resp) :
    ∀ (n idx : Nat) (d : ℚ), (retryAux resps n idx d).2.1 ≤ n := by
  intro n
  induction n with
  | zero => intro idx d; simp [retryAux]
  | succ m ih =>
      intro idx d
      rw [retryAux]
      dsimp only
      split
      · simpa using ih (idx + 1) (d * (3 / 2 : ℚ))
      · simp

/-- While the first N responses are 5xx, the first N sleeps of retryAux
are the geometric backoff prefix. -/
theorem retryAux_take (resps : Nat → Resp) :
    ∀ (N n idx : Nat) (d : ℚ), N ≤ n →
      (∀ i, i < N → 500 ≤ (resps (idx + i)).status) →
      (retryAux resps n idx d).1.take N =
        (List.range N).map (fun k => d * (3 / 2 : ℚ) ^ k) := by
  intro N
  induction N with
  | zero => simp
  | succ M ih =>
      intro n idx d hn h
      obtain ⟨m, rfl⟩ : ∃ m, n = m + 1 := ⟨n - 1, by omega⟩
      have h0 : 500 ≤ (resps idx).status := by simpa using h 0 M.succ_pos
      have hshift : ∀ i, i < M → 500 ≤ (resps (idx + 1 + i)).status := by
        intro i hi
        have := h (i + 1) (by omega)
        simpa [Nat.add_assoc, Nat.add_comm 1 i] using this
      rw [retryAux]
      simp only [if_pos h0, List.take_succ_cons]
      rw [ih m (idx + 1) (d * (3 / 2 : ℚ)) (by omega) hshift]
      exact geom_cons d M

/-- C5: whenever the first N responses inside retry_get are 5xx, the
sleeps before the successive re-attempts are exactly 120, 180, 270, ...,
each 1.5 times the previous and strictly increasing; at most 20 requests
are issued in total, and when all 20 responses are 5xx the call ends
fatally surfacing the last status code and response body after the full
backoff sequence. -/
theorem C5_retry_backoff (resps : Nat → Resp) (N : Nat) (hN : N ≤ 20)
    (h5 : ∀ i, i < N → 500 ≤ (resps i).status) :
    (retry_get resps).1.take N =
        (List.range N).map (fun k => (120 : ℚ) * (3 / 2 : ℚ) ^ k)
    ∧ (∀ i j : Nat, i < j → j < N → ∀ a b : ℚ,
        (retry_get resps).1[i]? = some a → (retry_get resps).1[j]? = some b →
          a < b)
    ∧ (retry_get resps).2.1 ≤ 20
    ∧ (N = 20 → retry_get resps =
        ((List.range 20).map (fun k => (120 : ℚ) * (3 / 2 : ℚ) ^ k), 20,
          .error ((resps 19).status, (resps 19).content))) := by
  simp only [retry_get]
  have htake := retryAux_take resps N 20 0 120 hN (by simpa using h5)
  refine ⟨htake, ?_, retryAux_count_le resps 20 0 120, ?_⟩
  · intro i j hij hjN a b ha hb
    have hiN : i < N := hij.trans hjN
    have hgeti : (retryAux resps 20 0 120).1[i]? =
        ((retryAux resps 20 0 120).1.take N)[i]? :=
      (List.getElem?_take_of_lt hiN).symm
    have hgetj : (retryAux resps 20 0 120).1[j]? =
        ((retryAux resps 20 0 120).1.take N)[j]? :=
      (List.getElem?_take_of_lt hjN).symm
    rw [hgeti, htake] at ha
    rw [hgetj, htake] at hb
    simp [List.getElem?_map, List.getElem?_range, hiN, hjN] at ha hb
    rw [← ha, ← hb]
    have hpow : (3 / 2 : ℚ) ^ i < (3 / 2 : ℚ) ^ j :=
      pow_lt_pow_right₀ (by norm_num) hij
    have h120 : (0 : ℚ) < 120 := by norm_num
    exact (mul_lt_mul_left h120).mpr hpow
  · intro hNeq
    subst hNeq
    have := retryAux_all5 resps 20 0 120 (by simpa using h5)
    simpa using this

/-- C5 witness: the theorem applied to the constant 503 response stream
with N = 20. -/
theorem C5_retry_backoff_witness :
    (retry_get (fun _ => ⟨503, "server error", none⟩)).1.take 20 =
        (List.range 20).map (fun k => (120 : ℚ) * (3 / 2 : ℚ) ^ k)
    ∧ (∀ i j : Nat, i < j → j < 20 → ∀ a b : ℚ,
        (retry_get (fun _ => ⟨503, "server error", none⟩)).1[i]? = some a →
        (retry_get (fun _ => ⟨503, "server error", none⟩)).1[j]? = some b →
          a < b)
    ∧ (retry_get (fun _ => ⟨503, "server error", none⟩)).2.1 ≤ 20
    ∧ (20 = 20 → retry_get (fun _ => ⟨503, "server error", none⟩) =
        ((List.range 20).map (fun k => (120 : ℚ) * (3 / 2 : ℚ) ^ k), 20,
          .error (((fun _ => (⟨503, "server error", none⟩ : Resp)) 19).status,
            ((fun _ => (⟨503, "server error", none⟩ : Resp)) 19).content))) :=
  C5_retry_backoff (fun _ => ⟨503, "server error", none⟩) 20 (le_refl 20)
    (fun i _ => by norm_num)

/-- C9: when all 20 attempts of retry_get hit 5xx, a sleep follows every
failed attempt, the 20th included: there are 20 sleeps, the last one is
120 * 1.5^19 seconds, they total 120 * (1.5^20 - 1) / 0.5 = 240 *
(1.5^20 - 1) seconds, and only then is the fatal exhaustion error raised
with the last status and body. -/
theorem C9_sleep_after_final_attempt (resps : Nat → Resp)
    (h5 : ∀ i, i < 20 → 500 ≤ (resps i).status) :
    (retry_get resps).1.length = 20
    ∧ (retry_get resps).1.getLast? = some ((120 : ℚ) * (3 / 2 : ℚ) ^ 19)
    ∧ (retry_get resps).1.sum = 240 * ((3 / 2 : ℚ) ^ 20 - 1)
    ∧ (retry_get resps).2.2 = .error ((resps 19).status, (resps 19).content) := by
  have h20 := retryAux_all5 resps 20 0 120 (by simpa using h5)
  have hlast : ((List.range 20).map
      (fun k => (120 : ℚ) * (3 / 2 : ℚ) ^ k)).getLast? =
      some ((120 : ℚ) * (3 / 2 : ℚ) ^ 19) := by
    norm_num [List.range_succ]
  have hsum : ((List.range 20).map
      (fun k => (120 : ℚ) * (3 / 2 : ℚ) ^ k)).sum =
      240 * ((3 / 2 : ℚ) ^ 20 - 1) := by
    norm_num [List.range_succ]
  refine ⟨?_, ?_, ?_, ?_⟩
  · rw [retry_get, h20]; simp
  · rw [retry_get, h20]; exact hlast
  · rw [retry_get, h20]; exact hsum
  · rw [retry_get, h20]

/-- C9 witness: the theorem applied to the constant 500 response
stream. -/
theorem C9_sleep_after_final_attempt_witness :
    (retry_get (fun _ => ⟨500, "boom", none⟩)).1.length = 20
    ∧ (retry_get (fun _ => ⟨500, "boom", none⟩)).1.getLast? =
        some ((120 : ℚ) * (3 / 2 : ℚ) ^ 19)
    ∧ (retry_get (fun _ => ⟨500, "boom", none⟩)).1.sum =
        240 * ((3 / 2 : ℚ) ^ 20 - 1)
    ∧ (retry_get (fun _ => ⟨500, "boom", none⟩)).2.2 =
        .error (((fun _ => (⟨500, "boom", none⟩ : Resp)) 19).status,
          ((fun _ => (⟨500, "boom", none⟩ : Resp)) 19).content) :=
  C9_sleep_after_final_attempt (fun _ => ⟨500, "boom", none⟩)
    (fun i _ => by norm_num)

/-- Every iteration of the page/page-size loop issues its request at the
current page, whatever the response brings: the trace of any run with fuel
left starts with the current page. -/
theorem paged_aux_head (resps : Nat → Resp) (n idx page a : Nat) :
    ((get_using_paged_aux resps (n + 1) idx page a).1).head? = some page := by
  rcases h : (resps idx).json with _ | body
  · simp only [get_using_paged_aux, h]
    split <;> simp
  · simp only [get_using_paged_aux, h]
    rcases hc : end_of_records_check (resps idx).status body with e | b
    · simp [hc]
    · cases b <;> simp [hc]

/-- C4: on a JSON-decode failure the page/page-size strategy refetches the
same page, the page counter not incremented, tolerating up to 3 decode
attempts at that page before raising ValueError fatally on the third,
whereas both offset-based strategies fail fatally on the first decode
failure with no retry: get_members_limits raises ValueError at once and
get_using_offset lets the JSONDecodeError propagate after a single
request. -/
theorem C4_decode_failure_policy (resps : Nat → Resp) (fuel idx page off : Nat)
    (hfuel : 3 ≤ fuel) :
    ((resps idx).json = none → (resps (idx + 1)).json = none →
      (resps (idx + 2)).json = none →
      get_using_paged_aux resps fuel idx page 0 =
        ([page, page, page], .fatal (.valueError "Error parsing file...")))
    ∧ ((resps idx).json = none →
        (get_using_paged_aux resps fuel idx page 0).1.take 2 = [page, page])
    ∧ ((resps idx).json = none →
        get_members_limits_aux resps fuel idx off =
          ([off], [], .fatal (.valueError "Error parsing file...")))
    ∧ ((resps idx).json = none → ∀ extract : Json → List Json,
        get_using_offset_aux resps extract fuel idx off =
          ([off], [], .fatal .jsonDecodeError)) := by
  obtain ⟨m, rfl⟩ : ∃ m, fuel = m + 3 := ⟨fuel - 3, by omega⟩
  refine ⟨?_, ?_, ?_, ?_⟩
  · intro h0 h1 h2
    simp [get_using_paged_aux, h0, h1, h2]
  · intro h0
    have hh : (m + 3) = (m + 2) + 1 := rfl
    rw [hh, get_using_paged_aux]
    simp only [h0]
    rw [if_pos (by norm_num)]
    have hh2 : (m + 2) = (m + 1) + 1 := rfl
    rw [List.take_succ_cons, List.take_one, hh2, paged_aux_head]
    rfl
  · intro h0
    simp [get_members_limits_aux, h0]
  · intro h0 extract
    simp [get_using_offset_aux, h0]

/-- C4 witness: the theorem applied to a stream of undecodable bodies with
fuel 3: three same-page requests then a fatal ValueError for the paged
strategy, one request then fatal for each offset strategy. -/
theorem C4_decode_failure_policy_witness :
    get_using_paged_aux (fun _ => ⟨200, "not json", none⟩) 3 0 1 0 =
      ([1, 1, 1], .fatal (.valueError "Error parsing file..."))
    ∧ get_members_limits_aux (fun _ => ⟨200, "not json", none⟩) 3 0 0 =
      ([0], [], .fatal (.valueError "Error parsing file..."))
    ∧ get_using_offset_aux (fun _ => ⟨200, "not json", none⟩)
        (fun _ => []) 3 0 0 = ([0], [], .fatal .jsonDecodeError) :=
  ⟨(C4_decode_failure_policy (fun _ => ⟨200, "not json", none⟩) 3 0 1 0
      (le_refl 3)).1 rfl rfl rfl,
   (C4_decode_failure_policy (fun _ => ⟨200, "not json", none⟩) 3 0 1 0
      (le_refl 3)).2.2.1 rfl,
   (C4_decode_failure_policy (fun _ => ⟨200, "not json", none⟩) 3 0 1 0
      (le_refl 3)).2.2.2 rfl (fun _ => [])⟩

/-- Prepending a day start to the day sequence started one day later gives
the day sequence started at that day. -/
theorem dayseq_cons (s q : Nat) :
    s :: (List.range (q + 1)).map (fun k => s + 86400 + 86400 * k) =
      (List.range (q + 2)).map (fun k => s + 86400 * k) := by
  conv_rhs => rw [List.range_succ_eq_map]
  rw [List.map_cons, List.map_map]
  refine congrArg₂ _ (by norm_num) ?_
  refine List.map_congr_left fun a _ => ?_
  show s + 86400 + 86400 * a = s + 86400 * a.succ
  omega

/-- The day loop of discrete_days_since_start collects exactly the day
starts s, s + 86400, ..., one per day from s through now. -/
theorem daysLoop_eq (now s : Nat) (h : s ≤ now) :
    daysLoop now s =
      (List.range ((now - s) / 86400 + 1)).map (fun k => s + 86400 * k) := by
  rw [daysLoop, dif_pos h]
  by_cases h2 : s + 86400 ≤ now
  · rw [daysLoop_eq now (s + 86400) h2]
    have hd : (now - s) / 86400 = (now - (s + 86400)) / 86400 + 1 := by
      have h4 : now - s = (now - (s + 86400)) + 86400 := by omega
      rw [h4, Nat.add_div_right _ (by norm_num)]
    rw [hd]
    exact dayseq_cons s ((now - (s + 86400)) / 86400)
  · rw [daysLoop, dif_neg h2]
    have h0 : (now - s) / 86400 = 0 := Nat.div_eq_of_lt (by omega)
    rw [h0]
    norm_num [List.range_succ]
termination_by now + 1 - s
decreasing_by simp_wf; omega

/-- Per day of the day range, sync_timestamp performs exactly two paged
searches. -/
theorem countSearches_flatMap (now : Nat) (ds : List Nat) :
    countSearches (ds.flatMap fun day =>
      [TsEv.search "created_at" day, TsEv.search "updated_at" day,
       TsEv.setBookmark now]) = 2 * ds.length := by
  induction ds with
  | nil => simp [countSearches]
  | cons d rest ih =>
      simp only [List.flatMap_cons, countSearches, List.filter_append,
        List.length_append] at ih ⊢
      simp only [List.filter, isSearch]
      simp only [List.length_cons, List.length_nil]
      omega

/-- A nonempty day range makes the set_bookmark call for the last day the
last event of the sync_timestamp trace. -/
theorem tsEvents_getLast (now : Nat) (ds : List Nat) (h : ds ≠ []) :
    (ds.flatMap fun day =>
      [TsEv.search "created_at" day, TsEv.search "updated_at" day,
       TsEv.setBookmark now]).getLast? = some (.setBookmark now) := by
  induction ds with
  | nil => exact absurd rfl h
  | cons d rest ih =>
      rcases rest with _ | ⟨r, rs⟩
      · simp [List.flatMap_cons]
      · rw [List.flatMap_cons, List.getLast?_append]
        rw [ih (by simp)]
        simp

/-- C6: with bookmark day-start start and clock now, start <= now, the
day-windowed strategy issues exactly (days_between + 1) * 2 paged-search
invocations, two per calendar day of the inclusive day range, and its
final action is advancing the bookmark to now. -/
theorem C6_day_windowed_fetch_count (now start : Nat) (h : start ≤ now) :
    countSearches (sync_timestamp_events now start) =
      (now / 86400 - start / 86400 + 1) * 2
    ∧ (sync_timestamp_events now start).getLast? = some (.setBookmark now) := by
  have hs : start_of_day start ≤ now :=
    le_trans (Nat.div_mul_le_self start 86400) h
  have hdl := daysLoop_eq now (start_of_day start) hs
  have hdiv : (now - start_of_day start) / 86400 =
      now / 86400 - start / 86400 := by
    have hle : 86400 * (start / 86400) ≤ now := by
      calc 86400 * (start / 86400) = start / 86400 * 86400 := Nat.mul_comm _ _
        _ ≤ start := Nat.div_mul_le_self start 86400
        _ ≤ now := h
    have := Nat.sub_mul_div now 86400 (start / 86400) hle
    rw [start_of_day, Nat.mul_comm (start / 86400) 86400]
    exact this
  constructor
  · rw [sync_timestamp_events, discrete_days_since_start, hdl,
      countSearches_flatMap]
    rw [List.length_map, List.length_range, hdiv]
    ring
  · rw [sync_timestamp_events, discrete_days_since_start, hdl]
    exact tsEvents_getLast now _ (by simp)

/-- C6 witness: bookmark on day 10 since epoch, now two days later on day
12: exactly 6 paged searches, and the final event sets the bookmark to
now. -/
theorem C6_day_windowed_fetch_count_witness :
    countSearches (sync_timestamp_events 1036800 864000) = 6
    ∧ (sync_timestamp_events 1036800 864000).getLast? =
        some (.setBookmark 1036800) := by
  have h := C6_day_windowed_fetch_count 1036800 864000 (by norm_num)
  norm_num at h
  exact h

/-- Shifting the batch index by one inside an endGroup is the same as
starting the group numbering one request and 500 offsets later. -/
theorem endGroup_succ (extract : Json → List Json) (bod : Nat → Json)
    (e off idx i : Nat) :
    endGroup extract bod e off idx (i + 1) =
      endGroup extract bod e (off + 500) (idx + 1) i := by
  simp only [endGroup]
  have h1 : off + 500 * (i + 1) = off + 500 + 500 * i := by omega
  have h2 : idx + (i + 1) = idx + 1 + i := by omega
  rw [h1, h2]

/-- Exact trace of a sync_end_time run whose k-th batch is the first short
one: one endGroup per batch, fetch then write then set_bookmark(end), for
every batch including the intermediate ones, ending in a normal stop. -/
theorem sync_end_time_trace (resps : Nat → Resp) (extract : Json → List Json)
    (e : Nat) (bod : Nat → Json) :
    ∀ (k fuel idx off : Nat), k < fuel →
      (∀ i, i ≤ k → (resps (idx + i)).json = some (bod (idx + i))) →
      (∀ i, i < k → 500 ≤ (extract (bod (idx + i))).length) →
      (extract (bod (idx + k))).length < 500 →
      sync_end_time_aux resps extract e fuel idx off =
        ((List.range (k + 1)).flatMap (endGroup extract bod e off idx),
          .stop) := by
  intro k
  induction k with
  | zero =>
      intro fuel idx off hfuel hj _ hshort
      obtain ⟨m, rfl⟩ : ∃ m, fuel = m + 1 := ⟨fuel - 1, by omega⟩
      have hj0 : (resps idx).json = some (bod idx) := by simpa using hj 0 le_rfl
      have hs : ¬ 500 ≤ (extract (bod idx)).length := by
        simp only [Nat.add_zero] at hshort
        omega
      simp only [sync_end_time_aux, hj0, if_neg hs]
      simp [endGroup, List.range_succ]
  | succ k ih =>
      intro fuel idx off hfuel hj hfull hshort
      obtain ⟨m, rfl⟩ : ∃ m, fuel = m + 1 := ⟨fuel - 1, by omega⟩
      have hj0 : (resps idx).json = some (bod idx) := by simpa using hj 0 (by omega)
      have hf0 : 500 ≤ (extract (bod idx)).length := by
        simpa using hfull 0 (by omega)
      have hrec := ih m (idx + 1) (off + 500) (by omega)
        (fun i hi => by
          have := hj (i + 1) (by omega)
          simpa [Nat.add_assoc, Nat.add_comm 1 i] using this)
        (fun i hi => by
          have := hfull (i + 1) (by omega)
          simpa [Nat.add_assoc, Nat.add_comm 1 i] using this)
        (by
          have := hshort
          simpa [Nat.add_assoc, Nat.add_comm 1 k] using this)
      simp only [sync_end_time_aux, hj0, if_pos hf0, hrec]
      refine congrArg₂ _ ?_ rfl
      conv_rhs => rw [List.range_succ_eq_map]
      rw [List.flatMap_cons, List.flatMap_map]
      refine congrArg₂ _ ?_ ?_
      · simp [endGroup]
      · exact congrArg _ (funext fun a => (endGroup_succ extract bod e off idx a).symm)

set_option maxRecDepth 4096 in
/-- C2 counterexample: a two-batch window (500 records then 0) in which
the bookmark write of the first batch, event index 2, happens before the
second fetch of the same window, event index 3: set_bookmark(end) is not
deferred until the offset cursor is exhausted. -/
theorem C2_counterexample :
    ¬ (∀ p q v o : Nat,
        (sync_end_time (fun i => ⟨200, "", some (.num (Int.ofNat i))⟩)
          (fun b => if b == Json.num 0 then List.replicate 500 Json.null
            else [])
          100 10).1[p]? = some (.setBookmark v) →
        (sync_end_time (fun i => ⟨200, "", some (.num (Int.ofNat i))⟩)
          (fun b => if b == Json.num 0 then List.replicate 500 Json.null
            else [])
          100 10).1[q]? = some (.fetch o) →
        q < p) := by
  intro h
  have h23 := h 2 3 100 500 rfl rfl
  omega

set_option maxRecDepth 4096 in
/-- C2 (amended): in sync_end_time, set_bookmark(bookmark, end) is
executed once per fetched batch, immediately after that batch's records
are written and before the next fetch of the window, always writing the
window end; the trace of a window whose k-th batch is the first short one
is exactly one fetch/write/set_bookmark group per batch. -/
theorem C2_bookmark_written_per_batch (resps : Nat → Resp)
    (extract : Json → List Json) (e : Nat) (bod : Nat → Json)
    (k fuel : Nat) (hfuel : k < fuel)
    (hj : ∀ i, i ≤ k → (resps i).json = some (bod i))
    (hfull : ∀ i, i < k → 500 ≤ (extract (bod i)).length)
    (hshort : (extract (bod k)).length < 500) :
    sync_end_time resps extract e fuel =
      ((List.range (k + 1)).flatMap (endGroup extract bod e 0 0), .stop) := by
  rw [sync_end_time]
  exact sync_end_time_trace resps extract e bod k fuel 0 0 hfuel
    (fun i hi => by simpa using hj i hi)
    (fun i hi => by simpa using hfull i hi)
    (by simpa using hshort)

set_option maxRecDepth 4096 in
/-- C2 witness: the amended theorem applied to the two-batch window of the
counterexample. -/
theorem C2_bookmark_written_per_batch_witness :
    sync_end_time (fun i => ⟨200, "", some (.num (Int.ofNat i))⟩)
      (fun b => if b == Json.num 0 then List.replicate 500 Json.null else [])
      100 10 =
      ((List.range 2).flatMap (endGroup
        (fun b => if b == Json.num 0 then List.replicate 500 Json.null
          else [])
        (fun i => Json.num (Int.ofNat i)) 100 0 0), .stop) :=
  C2_bookmark_written_per_batch
    (fun i => ⟨200, "", some (.num (Int.ofNat i))⟩)
    (fun b => if b == Json.num 0 then List.replicate 500 Json.null else [])
    100 (fun i => Json.num (Int.ofNat i)) 1 10 (by omega)
    (fun i _ => rfl)
    (fun i hi => by
      have h0 : i = 0 := by omega
      subst h0
      decide)
    (by decide)

/-- Prepending the image of 0 to the shifted map over an inclusive range
extends the range by one on the left. -/
theorem cons_map_range_succ {α : Type} (f : Nat → α) (q : Nat) :
    f 0 :: (List.range (q + 1)).map (fun i => f (i + 1)) =
      (List.range (q + 2)).map f := by
  conv_rhs => rw [List.range_succ_eq_map]
  rw [List.map_cons, List.map_map]
  rfl

/-- Exact trace of get_using_offset when the k-th batch is the first one
shorter than the limit: one request per batch at offsets 0, 500, 1000,
..., each batch yielded, ending in a normal stop after the short batch. -/
theorem get_using_offset_trace (resps : Nat → Resp)
    (extract : Json → List Json) (bod : Nat → Json) :
    ∀ (k fuel idx off : Nat), k < fuel →
      (∀ i, i ≤ k → (resps (idx + i)).json = some (bod (idx + i))) →
      (∀ i, i < k → 500 ≤ (extract (bod (idx + i))).length) →
      (extract (bod (idx + k))).length < 500 →
      get_using_offset_aux resps extract fuel idx off =
        ((List.range (k + 1)).map (fun i => off + 500 * i),
         (List.range (k + 1)).map (fun i => extract (bod (idx + i))),
         .stop) := by
  intro k
  induction k with
  | zero =>
      intro fuel idx off hfuel hj _ hshort
      obtain ⟨m, rfl⟩ : ∃ m, fuel = m + 1 := ⟨fuel - 1, by omega⟩
      have hj0 : (resps idx).json = some (bod idx) := by simpa using hj 0 le_rfl
      have hs : ¬ 500 ≤ (extract (bod idx)).length := by
        simp only [Nat.add_zero] at hshort
        omega
      simp only [get_using_offset_aux, hj0, if_neg hs]
      simp [List.range_succ]
  | succ k ih =>
      intro fuel idx off hfuel hj hfull hshort
      obtain ⟨m, rfl⟩ : ∃ m, fuel = m + 1 := ⟨fuel - 1, by omega⟩
      have hj0 : (resps idx).json = some (bod idx) := by simpa using hj 0 (by omega)
      have hf0 : 500 ≤ (extract (bod idx)).length := by
        simpa using hfull 0 (by omega)
      have hrec := ih m (idx + 1) (off + 500) (by omega)
        (fun i hi => by
          have := hj (i + 1) (by omega)
          simpa [Nat.add_assoc, Nat.add_comm 1 i] using this)
        (fun i hi => by
          have := hfull (i + 1) (by omega)
          simpa [Nat.add_assoc, Nat.add_comm 1 i] using this)
        (by
          have := hshort
          simpa [Nat.add_assoc, Nat.add_comm 1 k] using this)
      simp only [get_using_offset_aux, hj0, if_pos hf0, hrec]
      refine congrArg₂ _ ?_ (congrArg₂ _ ?_ rfl)
      · have hmc : (List.range (k + 1)).map (fun i => off + 500 + 500 * i) =
            (List.range (k + 1)).map (fun i =>
              (fun j => off + 500 * j) (i + 1)) :=
          List.map_congr_left fun a _ => by
            show off + 500 + 500 * a = off + 500 * (a + 1)
            omega
        rw [hmc]
        exact cons_map_range_succ (fun j => off + 500 * j) k
      · have hmc : (List.range (k + 1)).map
            (fun i => extract (bod (idx + 1 + i))) =
            (List.range (k + 1)).map (fun i =>
              (fun j => extract (bod (idx + j))) (i + 1)) :=
          List.map_congr_left fun a _ =>
            congrArg (fun t => extract (bod t)) (by omega)
        rw [hmc]
        exact cons_map_range_succ (fun j => extract (bod (idx + j))) k

/-- get_using_offset breaks out of its loop only after a batch strictly
shorter than the limit: a normal stop means the last yielded batch is
short and every earlier one reached the limit. -/
theorem get_using_offset_stop (resps : Nat → Resp)
    (extract : Json → List Json) :
    ∀ (fuel idx off : Nat) (reqs : List Nat) (batches : List (List Json)),
      get_using_offset_aux resps extract fuel idx off =
        (reqs, batches, .stop) →
      ∃ prev last, batches = prev ++ [last] ∧ last.length < 500 ∧
        ∀ b ∈ prev, 500 ≤ b.length := by
  intro fuel
  induction fuel with
  | zero =>
      intro idx off reqs batches h
      simp [get_using_offset_aux] at h
  | succ n ih =>
      intro idx off reqs batches h
      rcases hj : (resps idx).json with _ | body
      · simp only [get_using_offset_aux, hj] at h
        simp at h
      · simp only [get_using_offset_aux, hj] at h
        rcases hrest : get_using_offset_aux resps extract n (idx + 1)
          (off + 500) with ⟨r1, r2, r3⟩
        rw [hrest] at h
        by_cases hlen : 500 ≤ (extract body).length
        · rw [if_pos hlen] at h
          simp only [Prod.mk.injEq] at h
          obtain ⟨h1, h2, h3⟩ := h
          obtain ⟨prev, last, hb, hshort, hprev⟩ :=
            ih (idx + 1) (off + 500) r1 r2 (by rw [hrest, h3])
          refine ⟨extract body :: prev, last, ?_, hshort, ?_⟩
          · rw [← h2, hb]
            simp
          · intro b hbm
            rcases List.mem_cons.mp hbm with hbe | hbp
            · rw [hbe]
              exact hlen
            · exact hprev b hbp
        · rw [if_neg hlen] at h
          simp only [Prod.mk.injEq] at h
          obtain ⟨h1, h2, h3⟩ := h
          refine ⟨[], extract body, ?_, by omega, by simp⟩
          rw [← h2]
          simp

/-- Exact trace of get_members_limits when the k-th batch is the first
empty one: one request per batch at offsets 0, 250000, 500000, ..., each
decoded body yielded, ending in a normal stop after the empty batch. -/
theorem get_members_limits_trace (resps : Nat → Resp) (bod : Nat → Json)
    (len : Nat → Nat) :
    ∀ (k fuel idx off : Nat), k < fuel →
      (∀ i, i ≤ k → (resps (idx + i)).json = some (bod (idx + i))) →
      (∀ i, i ≤ k → pyLen (bod (idx + i)) = .ok (len (idx + i))) →
      (∀ i, i < k → len (idx + i) ≠ 0) →
      len (idx + k) = 0 →
      get_members_limits_aux resps fuel idx off =
        ((List.range (k + 1)).map (fun i => off + 250000 * i),
         (List.range (k + 1)).map (fun i => bod (idx + i)),
         .stop) := by
  intro k
  induction k with
  | zero =>
      intro fuel idx off hfuel hj hl _ hempty
      obtain ⟨m, rfl⟩ : ∃ m, fuel = m + 1 := ⟨fuel - 1, by omega⟩
      have hj0 : (resps idx).json = some (bod idx) := by simpa using hj 0 le_rfl
      have hl0 : pyLen (bod idx) = .ok (len idx) := by simpa using hl 0 le_rfl
      have he : len idx = 0 := by simpa using hempty
      simp only [get_members_limits_aux, hj0, hl0, he]
      simp [List.range_succ]
  | succ k ih =>
      intro fuel idx off hfuel hj hl hfull hempty
      obtain ⟨m, rfl⟩ : ∃ m, fuel = m + 1 := ⟨fuel - 1, by omega⟩
      have hj0 : (resps idx).json = some (bod idx) := by simpa using hj 0 (by omega)
      have hl0 : pyLen (bod idx) = .ok (len idx) := by simpa using hl 0 (by omega)
      have hf0 : len idx ≠ 0 := by simpa using hfull 0 (by omega)
      have hrec := ih m (idx + 1) (off + 250000) (by omega)
        (fun i hi => by
          have := hj (i + 1) (by omega)
          simpa [Nat.add_assoc, Nat.add_comm 1 i] using this)
        (fun i hi => by
          have := hl (i + 1) (by omega)
          simpa [Nat.add_assoc, Nat.add_comm 1 i] using this)
        (fun i hi => by
          have := hfull (i + 1) (by omega)
          simpa [Nat.add_assoc, Nat.add_comm 1 i] using this)
        (by
          have := hempty
          simpa [Nat.add_assoc, Nat.add_comm 1 k] using this)
      simp only [get_members_limits_aux, hj0, hl0, if_pos hf0, hrec]
      refine congrArg₂ _ ?_ (congrArg₂ _ ?_ rfl)
      · have hmc : (List.range (k + 1)).map
            (fun i => off + 250000 + 250000 * i) =
            (List.range (k + 1)).map (fun i =>
              (fun j => off + 250000 * j) (i + 1)) :=
          List.map_congr_left fun a _ => by
            show off + 250000 + 250000 * a = off + 250000 * (a + 1)
            omega
        rw [hmc]
        exact cons_map_range_succ (fun j => off + 250000 * j) k
      · have hmc : (List.range (k + 1)).map
            (fun i => bod (idx + 1 + i)) =
            (List.range (k + 1)).map (fun i =>
              (fun j => bod (idx + j)) (i + 1)) :=
          List.map_congr_left fun a _ =>
            congrArg (fun t => bod t) (by omega)
        rw [hmc]
        exact cons_map_range_succ (fun j => bod (idx + j)) k

/-- get_members_limits breaks out of its loop only after an empty batch: a
normal stop means the last yielded body has length 0 and every earlier one
was nonempty. -/
theorem get_members_limits_stop (resps : Nat → Resp) :
    ∀ (fuel idx off : Nat) (reqs : List Nat) (bodies : List Json),
      get_members_limits_aux resps fuel idx off = (reqs, bodies, .stop) →
      ∃ prev last, bodies = prev ++ [last] ∧ pyLen last = .ok 0 ∧
        ∀ b ∈ prev, ∀ n, pyLen b = .ok n → n ≠ 0 := by
  intro fuel
  induction fuel with
  | zero =>
      intro idx off reqs bodies h
      simp [get_members_limits_aux] at h
  | succ n ih =>
      intro idx off reqs bodies h
      rcases hj : (resps idx).json with _ | body
      · simp only [get_members_limits_aux, hj] at h
        simp at h
      · simp only [get_members_limits_aux, hj] at h
        rcases hpl : pyLen body with e | ln
        · rw [hpl] at h
          simp at h
        · rw [hpl] at h
          rcases hrest : get_members_limits_aux resps n (idx + 1)
            (off + 250000) with ⟨r1, r2, r3⟩
          rw [hrest] at h
          dsimp only at h
          by_cases hn : ln ≠ 0
          · rw [if_pos hn] at h
            simp only [Prod.mk.injEq] at h
            obtain ⟨h1, h2, h3⟩ := h
            obtain ⟨prev, last, hb, hempty, hprev⟩ :=
              ih (idx + 1) (off + 250000) r1 r2 (by rw [hrest, h3])
            refine ⟨body :: prev, last, ?_, hempty, ?_⟩
            · rw [← h2, hb]
              simp
            · intro b hbm m hm
              rcases List.mem_cons.mp hbm with hbe | hbp
              · rw [hbe] at hm
                rw [hm] at hpl
                injection hpl with hml
                omega
              · exact hprev b hbp m hm
          · rw [if_neg hn] at h
            simp only [Prod.mk.injEq] at h
            obtain ⟨h1, h2, h3⟩ := h
            push_neg at hn
            refine ⟨[], body, ?_, by rw [hpl, hn], by simp⟩
            rw [← h2]
            simp

/-- C8: the offset-window cursor (limit 500) advances its offset by
exactly 500 and fetches again after every batch of length >= 500, and
stops iff the latest batch is strictly shorter than 500; the bulk-offset
cursor (limit 250000) advances by exactly 250000 after every nonempty
batch and stops iff the latest decoded batch is empty. -/
theorem C8_offset_cursor_termination (resps : Nat → Resp)
    (extract : Json → List Json) (bod : Nat → Json) (len : Nat → Nat)
    (k fuel : Nat) (hfuel : k < fuel) :
    ((∀ i, i ≤ k → (resps i).json = some (bod i)) →
      (∀ i, i < k → 500 ≤ (extract (bod i)).length) →
      (extract (bod k)).length < 500 →
      get_using_offset_aux resps extract fuel 0 0 =
        ((List.range (k + 1)).map (fun i => 500 * i),
         (List.range (k + 1)).map (fun i => extract (bod i)), .stop))
    ∧ (∀ idx off reqs batches,
        get_using_offset_aux resps extract fuel idx off =
          (reqs, batches, .stop) →
        ∃ prev last, batches = prev ++ [last] ∧ last.length < 500 ∧
          ∀ b ∈ prev, 500 ≤ b.length)
    ∧ ((∀ i, i ≤ k → (resps i).json = some (bod i)) →
      (∀ i, i ≤ k → pyLen (bod i) = .ok (len i)) →
      (∀ i, i < k → len i ≠ 0) → len k = 0 →
      get_members_limits_aux resps fuel 0 0 =
        ((List.range (k + 1)).map (fun i => 250000 * i),
         (List.range (k + 1)).map (fun i => bod i), .stop))
    ∧ (∀ idx off reqs bodies,
        get_members_limits_aux resps fuel idx off = (reqs, bodies, .stop) →
        ∃ prev last, bodies = prev ++ [last] ∧ pyLen last = .ok 0 ∧
          ∀ b ∈ prev, ∀ n, pyLen b = .ok n → n ≠ 0) := by
  refine ⟨?_, get_using_offset_stop resps extract fuel, ?_,
    get_members_limits_stop resps fuel⟩
  · intro hj hfull hshort
    have ht := get_using_offset_trace resps extract bod k fuel 0 0 hfuel
      (fun i hi => by simpa using hj i hi)
      (fun i hi => by simpa using hfull i hi)
      (by simpa using hshort)
    rw [ht]
    refine congrArg₂ _ ?_ (congrArg₂ _ ?_ rfl)
    · exact List.map_congr_left fun a _ => by omega
    · exact List.map_congr_left fun a _ =>
        congrArg (fun t => extract (bod t)) (by omega)
  · intro hj hl hfull hempty
    have ht := get_members_limits_trace resps bod len k fuel 0 0 hfuel
      (fun i hi => by simpa using hj i hi)
      (fun i hi => by simpa using hl i hi)
      (fun i hi => by simpa using hfull i hi)
      (by simpa using hempty)
    rw [ht]
    refine congrArg₂ _ ?_ (congrArg₂ _ ?_ rfl)
    · exact List.map_congr_left fun a _ => by omega
    · exact List.map_congr_left fun a _ =>
        congrArg (fun t => bod t) (by omega)

/-- C8 witness: the theorem applied with k = 0 and fuel = 1 to the stream
whose single body is the empty array, short for the offset-window cursor
and empty for the bulk-offset cursor. -/
theorem C8_offset_cursor_termination_witness :
    ((∀ i, i ≤ 0 → ((fun _ => (⟨200, "", some (Json.arr .nil)⟩ : Resp)) i).json =
        some ((fun _ => Json.arr .nil) i)) →
      (∀ i, i < 0 → 500 ≤ ((fun _ => ([] : List Json))
        ((fun _ => Json.arr .nil) i)).length) →
      ((fun _ => ([] : List Json)) ((fun _ => Json.arr .nil) 0)).length < 500 →
      get_using_offset_aux (fun _ => ⟨200, "", some (Json.arr .nil)⟩)
        (fun _ => ([] : List Json)) 1 0 0 =
        ((List.range 1).map (fun i => 500 * i),
         (List.range 1).map (fun i => (fun _ => ([] : List Json))
           ((fun _ => Json.arr .nil) i)), .stop))
    ∧ (∀ idx off reqs batches,
        get_using_offset_aux (fun _ => ⟨200, "", some (Json.arr .nil)⟩)
          (fun _ => ([] : List Json)) 1 idx off = (reqs, batches, .stop) →
        ∃ prev last, batches = prev ++ [last] ∧ last.length < 500 ∧
          ∀ b ∈ prev, 500 ≤ b.length)
    ∧ ((∀ i, i ≤ 0 → ((fun _ => (⟨200, "", some (Json.arr .nil)⟩ : Resp)) i).json =
        some ((fun _ => Json.arr .nil) i)) →
      (∀ i, i ≤ 0 → pyLen ((fun _ => Json.arr .nil) i) =
        .ok ((fun _ => 0) i)) →
      (∀ i, i < 0 → (fun _ => 0) i ≠ 0) → (fun _ => 0) 0 = 0 →
      get_members_limits_aux (fun _ => ⟨200, "", some (Json.arr .nil)⟩) 1 0 0 =
        ((List.range 1).map (fun i => 250000 * i),
         (List.range 1).map (fun i => (fun _ => Json.arr .nil) i), .stop))
    ∧ (∀ idx off reqs bodies,
        get_members_limits_aux (fun _ => ⟨200, "", some (Json.arr .nil)⟩)
          1 idx off = (reqs, bodies, .stop) →
        ∃ prev last, bodies = prev ++ [last] ∧ pyLen last = .ok 0 ∧
          ∀ b ∈ prev, ∀ n, pyLen b = .ok n → n ≠ 0) :=
  C8_offset_cursor_termination (fun _ => ⟨200, "", some (Json.arr .nil)⟩)
    (fun _ => ([] : List Json)) (fun _ => Json.arr .nil) (fun _ => 0)
    0 1 (by omega)

/-- Folding bookmark events over an appended trace is folding the second
part from the result of the first. -/
theorem applyTsEvents_append (st : Option Nat) (l1 l2 : List TsEv) :
    applyTsEvents st (l1 ++ l2) = applyTsEvents (applyTsEvents st l1) l2 :=
  List.foldl_append _ _ _ _

/-- Folding bookmark events over an appended sync_end_time trace is
folding the second part from the result of the first. -/
theorem applyEndEvents_append (st : Option Nat) (l1 l2 : List EndEv) :
    applyEndEvents st (l1 ++ l2) = applyEndEvents (applyEndEvents st l1) l2 :=
  List.foldl_append _ _ _ _

/-- A nonempty day range leaves the bookmark at now after a sync_timestamp
trace, whatever it held before. -/
theorem applyTs_flatMap (now : Nat) :
    ∀ (ds : List Nat), ds ≠ [] → ∀ st : Option Nat,
      applyTsEvents st (ds.flatMap fun day =>
        [TsEv.search "created_at" day, TsEv.search "updated_at" day,
         TsEv.setBookmark now]) = some now := by
  intro ds
  induction ds with
  | nil => intro h; exact absurd rfl h
  | cons d rest ih =>
      intro _ st
      rw [List.flatMap_cons, applyTsEvents_append]
      by_cases hr : rest = []
      · subst hr
        simp [applyTsEvents, applyTsEv]
      · exact ih hr _

/-- A sync_end_time run that stops normally leaves the bookmark at the
window end, whatever it held before. -/
theorem applyEnd_stop (resps : Nat → Resp) (extract : Json → List Json)
    (e : Nat) :
    ∀ (fuel idx off : Nat),
      (sync_end_time_aux resps extract e fuel idx off).2 = .stop →
      ∀ st : Option Nat,
        applyEndEvents st (sync_end_time_aux resps extract e fuel idx off).1 =
          some e := by
  intro fuel
  induction fuel with
  | zero =>
      intro idx off h
      simp [sync_end_time_aux] at h
  | succ n ih =>
      intro idx off h st
      rcases hj : (resps idx).json with _ | body
      · simp only [sync_end_time_aux, hj] at h
        simp at h
      · simp only [sync_end_time_aux, hj] at h ⊢
        by_cases hlen : 500 ≤ (extract body).length
        · rw [if_pos hlen] at h ⊢
          rw [applyEndEvents_append]
          exact ih (idx + 1) (off + 500) h _
        · rw [if_neg hlen]
          simp [applyEndEvents, applyEndEv]

/-- A sync step run at a clock not behind the stored bookmark or the
configured start date writes the bookmark to the clock value. -/
theorem runStep_writes (sd now : Nat) (st : Option Nat) (kind : SyncKind)
    (hsd : sd ≤ now) (hst : ∀ v, st = some v → v ≤ now)
    (hok : stepOk now kind) :
    runStep sd now st kind = some now := by
  cases kind with
  | timestamp =>
      have hstart : update_start_date_bookmark sd st ≤ now := by
        cases st with
        | none => exact hsd
        | some v => exact hst v rfl
      have hday : start_of_day (update_start_date_bookmark sd st) ≤ now :=
        le_trans (Nat.div_mul_le_self _ _) hstart
      simp only [runStep, sync_timestamp_events]
      apply applyTs_flatMap
      rw [discrete_days_since_start, daysLoop, dif_pos hday]
      simp
  | endTime resps extract fuel =>
      simp only [runStep, sync_end_time]
      exact applyEnd_stop resps extract now fuel 0 0 hok st

/-- Running a sync sequence split in two is running the second part from
the state the first part leaves. -/
theorem runSyncs_append (sd : Nat) :
    ∀ (l1 l2 : List (SyncKind × Nat)) (st : Option Nat),
      runSyncs sd st (l1 ++ l2) = runSyncs sd (runSyncs sd st l1) l2 := by
  intro l1
  induction l1 with
  | nil => intro l2 st; rfl
  | cons r rest ih =>
      intro l2 st
      rw [List.cons_append, runSyncs, runSyncs]
      exact ih l2 _

/-- The state after i + 1 syncs is one step from the state after i. -/
theorem stateAfter_succ (sd : Nat) (st0 : Option Nat)
    (runs : List (SyncKind × Nat)) (i : Nat) (hi : i < runs.length) :
    stateAfter sd st0 runs (i + 1) =
      runStep sd (runs.get ⟨i, hi⟩).2 (stateAfter sd st0 runs i)
        (runs.get ⟨i, hi⟩).1 := by
  rw [stateAfter, stateAfter, List.take_succ, runSyncs_append,
    List.getElem?_eq_getElem hi]
  rfl

/-- Closed form of the bookmark after i syncs of a well-timed successful
sequence: unchanged for i = 0, and otherwise the clock value of the
(i-1)-th sync. -/
theorem stateAfter_closed (sd : Nat) (st0 : Option Nat)
    (runs : List (SyncKind × Nat))
    (hsd : ∀ r ∈ runs, sd ≤ r.2)
    (hinit : ∀ v, st0 = some v → ∀ r ∈ runs, v ≤ r.2)
    (hchain : runs.Pairwise (fun a b => a.2 ≤ b.2))
    (hok : ∀ r ∈ runs, stepOk r.2 r.1) :
    ∀ i, i ≤ runs.length →
      (i = 0 ∧ stateAfter sd st0 runs i = st0) ∨
      (∃ hi : i - 1 < runs.length, 1 ≤ i ∧
        stateAfter sd st0 runs i = some (runs.get ⟨i - 1, hi⟩).2) := by
  intro i
  induction i with
  | zero =>
      intro _
      exact Or.inl ⟨rfl, rfl⟩
  | succ i ih =>
      intro hle
      have hi : i < runs.length := by omega
      right
      refine ⟨by omega, by omega, ?_⟩
      rw [stateAfter_succ sd st0 runs i hi]
      have hmem : runs.get ⟨i, hi⟩ ∈ runs := runs.get_mem _ _
      have hstle : ∀ v, stateAfter sd st0 runs i = some v →
          v ≤ (runs.get ⟨i, hi⟩).2 := by
        intro v hv
        rcases ih (by omega) with ⟨_, hst⟩ | ⟨hi2, h1, hst⟩
        · rw [hst] at hv
          exact hinit v hv _ hmem
        · rw [hst] at hv
          injection hv with hv2
          rw [← hv2]
          exact List.pairwise_iff_get.mp hchain ⟨i - 1, hi2⟩ ⟨i, hi⟩
            (by simp only [Fin.mk_lt_mk]; omega)
      exact runStep_writes sd (runs.get ⟨i, hi⟩).2 (stateAfter sd st0 runs i)
        (runs.get ⟨i, hi⟩).1 (hsd _ hmem) hstle (hok _ hmem)

/-- C7: along any sequence of successful incremental syncs run at
non-decreasing clock values not behind the initial bookmark or the
configured start date, every sync writes a bookmark value at least the
value it read at the start of its window, and the stored bookmark never
regresses. -/
theorem C7_bookmark_monotone (sd : Nat) (st0 : Option Nat)
    (runs : List (SyncKind × Nat))
    (hsd : ∀ r ∈ runs, sd ≤ r.2)
    (hinit : ∀ v, st0 = some v → ∀ r ∈ runs, v ≤ r.2)
    (hchain : runs.Pairwise (fun a b => a.2 ≤ b.2))
    (hok : ∀ r ∈ runs, stepOk r.2 r.1) :
    (∀ i (hi : i < runs.length),
      update_start_date_bookmark sd (stateAfter sd st0 runs i) ≤
        (runs.get ⟨i, hi⟩).2 ∧
      stateAfter sd st0 runs (i + 1) = some (runs.get ⟨i, hi⟩).2)
    ∧ (∀ i j v w, i ≤ j → j ≤ runs.length →
        stateAfter sd st0 runs i = some v →
        stateAfter sd st0 runs j = some w → v ≤ w) := by
  have key := stateAfter_closed sd st0 runs hsd hinit hchain hok
  constructor
  · intro i hi
    have hmem : runs.get ⟨i, hi⟩ ∈ runs := runs.get_mem _ _
    constructor
    · rcases key i (by omega) with ⟨_, hst⟩ | ⟨hi2, h1, hst⟩
      · rw [hst]
        cases h0 : st0 with
        | none => exact hsd _ hmem
        | some v =>
            have := hinit v h0 _ hmem
            simpa [update_start_date_bookmark] using this
      · rw [hst]
        have := List.pairwise_iff_get.mp hchain ⟨i - 1, hi2⟩ ⟨i, hi⟩
          (by simp only [Fin.mk_lt_mk]; omega)
        simpa [update_start_date_bookmark] using this
    · rcases key (i + 1) (by omega) with ⟨hcon, _⟩ | ⟨hi2, h1, hst⟩
      · exact absurd hcon (by omega)
      · exact hst
  · intro i j v w hij hj hvi hvj
    rcases key i (by omega) with ⟨hi0, hsti⟩ | ⟨hii, h1i, hsti⟩
    · rcases key j (by omega) with ⟨hj0, hstj⟩ | ⟨hji, h1j, hstj⟩
      · rw [hsti] at hvi
        rw [hstj] at hvj
        rw [hvi] at hvj
        injection hvj with hvw
        omega
      · rw [hsti] at hvi
        rw [hstj] at hvj
        injection hvj with hw2
        rw [← hw2]
        exact hinit v hvi _ (runs.get_mem _ _)
    · rcases key j (by omega) with ⟨hj0, hstj⟩ | ⟨hji, h1j, hstj⟩
      · omega
      · rw [hsti] at hvi
        rw [hstj] at hvj
        injection hvi with hv2
        injection hvj with hw2
        rw [← hv2, ← hw2]
        by_cases heq : i - 1 = j - 1
        · have hgg : runs.get ⟨i - 1, hii⟩ = runs.get ⟨j - 1, hji⟩ := by
            congr 1
            exact Fin.ext heq
          rw [hgg]
        · exact List.pairwise_iff_get.mp hchain ⟨i - 1, hii⟩ ⟨j - 1, hji⟩
            (by simp only [Fin.mk_lt_mk]; omega)

/-- C7 witness: the theorem applied to two day-windowed syncs run at
clock values 100000 and then 200000 from an empty initial state. -/
theorem C7_bookmark_monotone_witness :
    (∀ i (hi : i <
        ([(SyncKind.timestamp, 100000), (SyncKind.timestamp, 200000)]).length),
      update_start_date_bookmark 0 (stateAfter 0 none
          [(SyncKind.timestamp, 100000), (SyncKind.timestamp, 200000)] i) ≤
        (([(SyncKind.timestamp, 100000),
           (SyncKind.timestamp, 200000)]).get ⟨i, hi⟩).2 ∧
      stateAfter 0 none
          [(SyncKind.timestamp, 100000), (SyncKind.timestamp, 200000)]
          (i + 1) =
        some (([(SyncKind.timestamp, 100000),
                (SyncKind.timestamp, 200000)]).get ⟨i, hi⟩).2)
    ∧ (∀ i j v w, i ≤ j →
        j ≤ ([(SyncKind.timestamp, 100000),
              (SyncKind.timestamp, 200000)]).length →
        stateAfter 0 none
          [(SyncKind.timestamp, 100000), (SyncKind.timestamp, 200000)] i =
            some v →
        stateAfter 0 none
          [(SyncKind.timestamp, 100000), (SyncKind.timestamp, 200000)] j =
            some w → v ≤ w) :=
  C7_bookmark_monotone 0 none
    [(SyncKind.timestamp, 100000), (SyncKind.timestamp, 200000)]
    (fun r _ => Nat.zero_le _)
    (fun v hv => nomatch hv)
    (by
      refine List.Pairwise.cons ?_ (List.pairwise_singleton _ _)
      intro b hb
      rcases List.mem_cons.mp hb with hbe | hb2
      · rw [hbe]
        norm_num
      · exact absurd hb2 (List.not_mem_nil b))
    (fun r hr => by
      rcases List.mem_cons.mp hr with hbe | hr2
      · rw [hbe]
        trivial
      · rcases List.mem_cons.mp hr2 with hbe2 | hr3
        · rw [hbe2]
          trivial
        · exact absurd hr3 (List.not_mem_nil r))
